import Mathlib

/-!
Streaming event decoder and initial state loader of the chat client.

Shallow embedding of two functions of the front end:

* `handleStreamResponse` of `frontend/src/api/index.js`: the read loop that
  buffers decoded text, cuts it into lines, recognises `data: ` lines and the
  sentinel, and dispatches each decoded payload to the caller's hooks;
* `getInitialState` of `frontend/src/composables/useAppState.js`: the loader of
  the five persisted fields.

Conventions of the embedding.

* Text is `List Char`. The reader's chunks are taken after `TextDecoder`, that
  is as the pieces of text that `decoder.decode(value, {stream: true})` returns.
* `JSON.parse` belongs to the platform, not to the repository: it is the
  parameter `parse`, with `none` standing for a thrown `SyntaxError`.
* A run of `handleStreamResponse` is the list of hook invocations it performs,
  in order. The hooks themselves are taken not to throw; each hook may be
  missing, as the source guards every call with `if (hook)`.
* The reader is a script of read results. A script that is used up stands for a
  read that has not settled yet: the run so far is returned.
-/

namespace ChatClient

/-! ## Values produced by `JSON.parse` -/

/-- JavaScript values as far as the decoder looks at them. Numbers are held as
integers: the code only tests a number for truthiness and hands it on. -/
inductive JsVal where
  | undefined : JsVal
  | null : JsVal
  | bool (b : Bool) : JsVal
  | num (n : Int) : JsVal
  | str (s : String) : JsVal
  | arr (items : List JsVal) : JsVal
  | obj (fields : List (String × JsVal)) : JsVal

/-- Text as a list of characters. -/
abbrev Text := List Char

/-- The platform's `JSON.parse`; `none` is a thrown `SyntaxError`. -/
abbrev JsonParse := Text → Option JsVal

/-- Own property lookup in the field list of an object. -/
def lookupField (key : String) : List (String × JsVal) → JsVal
  | [] => JsVal.undefined
  | (k, v) :: rest => if k = key then v else lookupField key rest

/-- Property read `v.key` for the keys the code uses (`type`, `content`,
`message`, `conversation_id`): a `TypeError` (`none`) on `null` and `undefined`,
the own property on an object, `undefined` on every other value. -/
def getProp (v : JsVal) (key : String) : Option JsVal :=
  match v with
  | JsVal.undefined => none
  | JsVal.null => none
  | JsVal.obj fields => some (lookupField key fields)
  | _ => some JsVal.undefined

/-- JavaScript truthiness (`ToBoolean`). -/
def truthy : JsVal → Bool
  | JsVal.undefined => false
  | JsVal.null => false
  | JsVal.bool b => b
  | JsVal.num n => n != 0
  | JsVal.str s => s != ""
  | JsVal.arr _ => true
  | JsVal.obj _ => true

/-- The operator `a || b`. -/
def jsOr (a b : JsVal) : JsVal := if truthy a then a else b

/-- Strict equality `v === s` against a string literal. -/
def isStr (v : JsVal) (s : String) : Bool :=
  match v with
  | JsVal.str t => t == s
  | _ => false

/-! ## Hook invocations -/

/-- One invocation of a hook. `message` carries the argument object of
`onMessage`: its `content` property when the object has one, and its
`conversation_id` property. -/
inductive Call where
  | message (content : Option JsVal) (conversation_id : JsVal) : Call
  | complete : Call
  | error (e : String) : Call

/-- Is the call an `onMessage`? -/
def Call.isMessage : Call → Bool
  | Call.message _ _ => true
  | _ => false

/-- Is the call an `onError`? -/
def Call.isError : Call → Bool
  | Call.error _ => true
  | _ => false

/-- Is the call an `onMessage` whose argument has a `content` property? -/
def Call.hasContent : Call → Bool
  | Call.message (some _) _ => true
  | _ => false

/-- Which of the three hooks the caller passed. -/
structure Hooks where
  onMessage : Bool
  onComplete : Bool
  onError : Bool

/-- All three hooks supplied. -/
def allHooks : Hooks := { onMessage := true, onComplete := true, onError := true }

/-! ## The classifier: the `switch (parsed.type)` -/

/-- The tags of the second `case` group. -/
def statusTypes : List String := ["status", "tools_status", "thinking", "response_start"]

/-- Body of the inner `try` after `JSON.parse`: `none` is an exception thrown
by `parsed.type` (before any hook is called), otherwise the hook calls made. -/
def dispatch (hooks : Hooks) (parsed : JsVal) : Option (List Call) :=
  match getProp parsed "type" with
  | none => none
  | some ty =>
    let content := (getProp parsed "content").getD JsVal.undefined
    let message := (getProp parsed "message").getD JsVal.undefined
    let cid := (getProp parsed "conversation_id").getD JsVal.undefined
    if isStr ty "content" then
      if truthy content && hooks.onMessage then
        some [Call.message (some content) cid]
      else some []
    else if statusTypes.any (fun t => isStr ty t) then
      if truthy cid && hooks.onMessage then
        some [Call.message none cid]
      else some []
    else
      if truthy (jsOr content message) && !truthy ty then
        if hooks.onMessage then
          some [Call.message (some (jsOr content message)) cid]
        else some []
      else some []

/-! ## The line parser: one turn of `for (const line of lines)` -/

/-- White space and line terminators removed by `String.prototype.trim`. -/
def isJsWhiteSpace (c : Char) : Bool :=
  let n := c.toNat
  n == 0x09 || n == 0x0A || n == 0x0B || n == 0x0C || n == 0x0D || n == 0x20 ||
  n == 0xA0 || n == 0x1680 || (0x2000 ≤ n && n ≤ 0x200A) || n == 0x2028 ||
  n == 0x2029 || n == 0x202F || n == 0x205F || n == 0x3000 || n == 0xFEFF

/-- The method `trim`. -/
def jsTrim (s : Text) : Text :=
  ((s.dropWhile isJsWhiteSpace).reverse.dropWhile isJsWhiteSpace).reverse

/-- The prefix of a data line. -/
def dataPrefix : Text := "data: ".toList

/-- The end-of-stream sentinel. -/
def doneSentinel : Text := "[DONE]".toList

/-- One turn of the `for` loop: the hook calls made for `line`, and whether the
turn executed `return`. -/
def processLine (parse : JsonParse) (hooks : Hooks) (line : Text) : List Call × Bool :=
  if jsTrim line = [] then ([], false)
  else if dataPrefix.isPrefixOf line then
    let data := line.drop 6
    if data = doneSentinel then
      (if hooks.onComplete then [Call.complete] else [], true)
    else
      match parse data with
      | none => ([], false)
      | some parsed =>
        match dispatch hooks parsed with
        | none => ([], false)
        | some calls => (calls, false)
  else ([], false)

/-- The loop `for (const line of lines)`: the hook calls made, and whether the
loop left the function by `return`. -/
def forLines (parse : JsonParse) (hooks : Hooks) : List Text → List Call × Bool
  | [] => ([], false)
  | line :: rest =>
    let r := processLine parse hooks line
    if r.2 then r
    else
      let r' := forLines parse hooks rest
      (r.1 ++ r'.1, r'.2)

/-! ## The chunk buffer and the read loop -/

/-- Put `c` in front of the first segment. -/
def consHead (c : Char) : List Text → List Text
  | [] => [[c]]
  | s :: ss => (c :: s) :: ss

/-- The method `split('\n')`: never empty, one more segment than newlines. -/
def splitNl : Text → List Text
  | [] => [[]]
  | c :: cs => if c = '\n' then [] :: splitNl cs else consHead c (splitNl cs)

/-- The expression `lines.pop() || ''`: the last segment. -/
def popOrEmpty (segs : List Text) : Text :=
  match segs.getLast? with
  | none => []
  | some s => if s = [] then [] else s

/-- What one `await reader.read()` yields. -/
inductive ReadResult where
  | value (chunk : Text) : ReadResult
  | done : ReadResult
  | fail (e : String) : ReadResult

/-- The loop `while (true)` with its enclosing `try`/`catch`, started with
`buffer` and run against the script `reads`. -/
def readLoop (parse : JsonParse) (hooks : Hooks) : List ReadResult → Text → List Call
  | [], _ => []
  | ReadResult.done :: _, _ => if hooks.onComplete then [Call.complete] else []
  | ReadResult.fail e :: _, _ => if hooks.onError then [Call.error e] else []
  | ReadResult.value chunk :: rest, buffer =>
    let segs := splitNl (buffer ++ chunk)
    let lines := segs.dropLast
    let r := forLines parse hooks lines
    if r.2 then r.1 else r.1 ++ readLoop parse hooks rest (popOrEmpty segs)

/-- The function `handleStreamResponse`: the loop started with `buffer = ''`. -/
def handleStreamResponse (parse : JsonParse) (hooks : Hooks) (reads : List ReadResult) :
    List Call :=
  readLoop parse hooks reads []

/-- The script of a reader that delivers `chunks` and then reports done. -/
def chunksThenDone (chunks : List Text) : List ReadResult :=
  chunks.map ReadResult.value ++ [ReadResult.done]

/-- The complete lines of a text: every segment but the last. -/
def completeLines (t : Text) : List Text := (splitNl t).dropLast

/-- The remainder the buffer keeps of a text: its last segment. -/
def lastSeg (t : Text) : Text := popOrEmpty (splitNl t)

/-- The hook calls for a list of complete lines followed by the end of the
stream: the `for` loop over the lines, then `onComplete` unless the loop has
already left the function at the sentinel. -/
def runLines (parse : JsonParse) (hooks : Hooks) (lines : List Text) : List Call :=
  let r := forLines parse hooks lines
  if r.2 then r.1 else r.1 ++ (if hooks.onComplete then [Call.complete] else [])

/-- Lines written out as text: each followed by a newline. -/
def unlines : List Text → Text
  | [] => []
  | l :: ls => l ++ '\n' :: unlines ls

/-! ## The initial state loader -/

/-- The durable storage `localStorage`: `getItem` gives `null` (here `none`)
for a key that is absent. -/
abbrev Storage := String → Option Text

/-- The expression `JSON.parse(localStorage.getItem(key))`. `JSON.parse` first
converts its argument to a string, so a missing item is parsed as the text
`null`. -/
def parseItem (parse : JsonParse) (storage : Storage) (key : String) : Option JsVal :=
  match storage key with
  | none => parse "null".toList
  | some t => parse t

/-- The object `getInitialState` returns. -/
structure AppState where
  isLoggedIn : JsVal
  userInfo : JsVal
  conversations : JsVal
  currentConversationId : JsVal
  currentMessages : JsVal
  isLoading : Bool
  showProfile : Bool
  showSettings : Bool
  showLogin : Bool
  showMobileSidebar : Bool
  sidebarCollapsed : Bool

/-- The object literal of the `catch` branch. -/
def fallbackState : AppState :=
  { isLoggedIn := JsVal.bool false
    userInfo := JsVal.null
    conversations := JsVal.arr []
    currentConversationId := JsVal.null
    currentMessages := JsVal.arr []
    isLoading := false
    showProfile := false
    showSettings := false
    showLogin := false
    showMobileSidebar := false
    sidebarCollapsed := false }

/-- The object literal of the `try` branch: `none` when one of the five
`JSON.parse` calls throws. -/
def tryInitialState (parse : JsonParse) (storage : Storage) : Option AppState := do
  let isLoggedIn ← parseItem parse storage "isLoggedIn"
  let userInfo ← parseItem parse storage "userInfo"
  let conversations ← parseItem parse storage "conversations"
  let currentConversationId ← parseItem parse storage "currentConversationId"
  let currentMessages ← parseItem parse storage "currentMessages"
  pure
    { isLoggedIn := jsOr isLoggedIn (JsVal.bool false)
      userInfo := jsOr userInfo JsVal.null
      conversations := jsOr conversations (JsVal.arr [])
      currentConversationId := jsOr currentConversationId JsVal.null
      currentMessages := jsOr currentMessages (JsVal.arr [])
      isLoading := false
      showProfile := false
      showSettings := false
      showLogin := false
      showMobileSidebar := false
      sidebarCollapsed := false }

/-- The function `getInitialState`: the `try` branch, or the `catch` branch
when the `try` branch threw. -/
def getInitialState (parse : JsonParse) (storage : Storage) : AppState :=
  match tryInitialState parse storage with
  | some st => st
  | none => fallbackState

/-- Per-field recovery as the specification words it: the field is decoded from
its own key, and takes its default when the key is absent or its text fails to
decode. Kept apart from `getInitialState` to compare the two. -/
def specLoadField (parse : JsonParse) (storage : Storage) (key : String) (dflt : JsVal) :
    JsVal :=
  match storage key with
  | none => dflt
  | some t =>
    match parse t with
    | none => dflt
    | some v => v

/-! ## Sample data for the worked examples -/

/-- The text `{"type":"content","content":"hi","conversation_id":"c1"}`. -/
def contentPayload : Text :=
  "\x7b\"type\":\"content\",\"content\":\"hi\",\"conversation_id\":\"c1\"\x7d".toList

/-- The object that `contentPayload` decodes to. -/
def contentObject : JsVal :=
  JsVal.obj [("type", JsVal.str "content"), ("content", JsVal.str "hi"),
    ("conversation_id", JsVal.str "c1")]

/-- The text `{"type":"content","content":"hi"}`. -/
def bareContentPayload : Text :=
  "\x7b\"type\":\"content\",\"content\":\"hi\"\x7d".toList

/-- The text `{"type":"content","content":""}`. -/
def emptyContentPayload : Text :=
  "\x7b\"type\":\"content\",\"content\":\"\"\x7d".toList

/-- The text `{not json}`, which is not JSON. -/
def brokenPayload : Text := "\x7bnot json\x7d".toList

/-- A fragment of `JSON.parse`: its results on the JSON texts `null`, `true`,
`contentPayload`, `bareContentPayload` and `emptyContentPayload`; every other
text is taken to be malformed. It is applied below to these five texts and to
texts that are not JSON only. -/
def sampleParse : JsonParse := fun t =>
  if t = "null".toList then some JsVal.null
  else if t = "true".toList then some (JsVal.bool true)
  else if t = contentPayload then some contentObject
  else if t = bareContentPayload then
    some (JsVal.obj [("type", JsVal.str "content"), ("content", JsVal.str "hi")])
  else if t = emptyContentPayload then
    some (JsVal.obj [("type", JsVal.str "content"), ("content", JsVal.str "")])
  else none

/-- A storage whose `isLoggedIn` item is `true` and whose `userInfo` item is
the broken text `{`. -/
def brokenStorage : Storage := fun key =>
  if key = "isLoggedIn" then some "true".toList
  else if key = "userInfo" then some "\x7b".toList
  else none

/-- The same storage without the `userInfo` item. -/
def intactStorage : Storage := fun key =>
  if key = "isLoggedIn" then some "true".toList else none

/-! ## Lemmas on splitting -/

theorem splitNl_ne_nil (t : Text) : splitNl t ≠ [] := by
  cases t with
  | nil => simp [splitNl]
  | cons c cs =>
    unfold splitNl
    split
    · simp
    · cases splitNl cs <;> simp [consHead]

theorem popOrEmpty_cons (s : Text) (ss : List Text) (h : ss ≠ []) :
    popOrEmpty (s :: ss) = popOrEmpty ss := by
  cases ss with
  | nil => exact absurd rfl h
  | cons a as => simp [popOrEmpty, List.getLast?_cons_cons]

theorem popOrEmpty_singleton (s : Text) : popOrEmpty [s] = s := by
  unfold popOrEmpty
  simp only [List.getLast?_singleton]
  split <;> simp_all

theorem splitNl_cons_nl (cs : Text) : splitNl ('\n' :: cs) = [] :: splitNl cs := by
  simp [splitNl]

theorem splitNl_cons_ne (c : Char) (cs : Text) (h : c ≠ '\n') :
    splitNl (c :: cs) = consHead c (splitNl cs) := by
  simp [splitNl, h]

theorem splitNl_append (a b : Text) :
    splitNl (a ++ b) = completeLines a ++ splitNl (lastSeg a ++ b) := by
  induction a with
  | nil => simp [completeLines, lastSeg, splitNl, popOrEmpty_singleton]
  | cons c a ih =>
    have hne := splitNl_ne_nil a
    rw [List.cons_append]
    by_cases hc : c = '\n'
    · subst hc
      rw [splitNl_cons_nl, ih]
      unfold completeLines lastSeg
      rw [splitNl_cons_nl, popOrEmpty_cons _ _ hne, List.dropLast_cons_of_ne_nil hne]
      rfl
    · rw [splitNl_cons_ne _ _ hc, ih]
      unfold completeLines lastSeg
      rw [splitNl_cons_ne _ _ hc]
      cases hs : splitNl a with
      | nil => exact absurd hs hne
      | cons s ss =>
        cases ss with
        | nil =>
          simp [consHead, popOrEmpty_singleton, splitNl_cons_ne _ _ hc]
        | cons s2 ss2 =>
          simp [consHead, popOrEmpty_cons]

theorem splitNl_eq_complete_last (t : Text) :
    splitNl t = completeLines t ++ [lastSeg t] := by
  have hne := splitNl_ne_nil t
  have h := List.dropLast_append_getLast hne
  unfold completeLines lastSeg popOrEmpty
  rw [List.getLast?_eq_getLast _ hne]
  simp only
  split
  · rename_i he; rw [← he]; exact h.symm
  · exact h.symm

theorem splitNl_lastSeg (t : Text) : splitNl (lastSeg t) = [lastSeg t] := by
  have h1 := splitNl_append t []
  have h2 := splitNl_eq_complete_last t
  simp only [List.append_nil] at h1
  rw [h2] at h1
  exact (List.append_cancel_left h1).symm

theorem completeLines_append (a b : Text) :
    completeLines (a ++ b) = completeLines a ++ completeLines (lastSeg a ++ b) := by
  unfold completeLines
  rw [splitNl_append a b]
  unfold completeLines
  rw [List.dropLast_append_of_ne_nil _ (splitNl_ne_nil _)]

theorem lastSeg_append (a b : Text) : lastSeg (a ++ b) = lastSeg (lastSeg a ++ b) := by
  have h := splitNl_append a b
  have h2 := splitNl_eq_complete_last (lastSeg a ++ b)
  rw [h2, ← List.append_assoc] at h
  have h3 := splitNl_eq_complete_last (a ++ b)
  rw [h3] at h
  have := List.append_inj' h rfl
  simpa using this.2


/-! ## Lemmas on the two loops -/

theorem forLines_cons (parse : JsonParse) (hooks : Hooks) (x : Text) (xs : List Text) :
    forLines parse hooks (x :: xs) =
      if (processLine parse hooks x).2 then processLine parse hooks x
      else ((processLine parse hooks x).1 ++ (forLines parse hooks xs).1,
            (forLines parse hooks xs).2) := rfl

theorem forLines_append (parse : JsonParse) (hooks : Hooks) (xs ys : List Text) :
    forLines parse hooks (xs ++ ys) =
      if (forLines parse hooks xs).2 then forLines parse hooks xs
      else ((forLines parse hooks xs).1 ++ (forLines parse hooks ys).1,
            (forLines parse hooks ys).2) := by
  induction xs with
  | nil => simp [forLines]
  | cons x xs ih =>
    rw [List.cons_append, forLines_cons, forLines_cons, ih]
    by_cases h1 : (processLine parse hooks x).2 = true
    · simp [h1]
    · by_cases h2 : (forLines parse hooks xs).2 = true
      · simp [h1, h2]
      · simp [h1, h2, List.append_assoc]

theorem readLoop_values (parse : JsonParse) (hooks : Hooks) (cs : List Text)
    (rest : List ReadResult) (buffer : Text) (hb : splitNl buffer = [buffer]) :
    readLoop parse hooks (cs.map ReadResult.value ++ rest) buffer =
      if (forLines parse hooks (completeLines (buffer ++ cs.flatten))).2
      then (forLines parse hooks (completeLines (buffer ++ cs.flatten))).1
      else (forLines parse hooks (completeLines (buffer ++ cs.flatten))).1 ++
        readLoop parse hooks rest (lastSeg (buffer ++ cs.flatten)) := by
  induction cs generalizing buffer with
  | nil =>
    simp [completeLines, lastSeg, hb, forLines, popOrEmpty_singleton]
  | cons v cs ih =>
    simp only [List.map_cons, List.cons_append, readLoop, List.flatten_cons]
    have ih2 := ih (lastSeg (buffer ++ v)) (splitNl_lastSeg _)
    rw [← List.append_assoc, completeLines_append (buffer ++ v), lastSeg_append (buffer ++ v),
      forLines_append]
    change (if (forLines parse hooks (completeLines (buffer ++ v))).2 = true
      then (forLines parse hooks (completeLines (buffer ++ v))).1
      else (forLines parse hooks (completeLines (buffer ++ v))).1 ++
        readLoop parse hooks (cs.map ReadResult.value ++ rest) (lastSeg (buffer ++ v))) = _
    rw [ih2]
    by_cases h1 : (forLines parse hooks (completeLines (buffer ++ v))).2 = true
    · simp [h1]
    · simp only [h1, if_false, Bool.false_eq_true]
      by_cases h2 : (forLines parse hooks
          (completeLines (lastSeg (buffer ++ v) ++ cs.flatten))).2 = true
      · simp [h2]
      · simp [h2, List.append_assoc]

theorem handle_chunksThenDone (parse : JsonParse) (hooks : Hooks) (cs : List Text) :
    handleStreamResponse parse hooks (chunksThenDone cs) =
      runLines parse hooks (completeLines cs.flatten) := by
  unfold handleStreamResponse chunksThenDone runLines
  rw [readLoop_values parse hooks cs _ [] (by simp [splitNl])]
  simp [readLoop]

theorem splitNl_of_not_mem (s : Text) (h : '\n' ∉ s) : splitNl s = [s] := by
  induction s with
  | nil => rfl
  | cons c cs ih =>
    have hc : c ≠ '\n' := fun e => h (by simp [e])
    have hcs : '\n' ∉ cs := fun e => h (List.mem_cons_of_mem _ e)
    rw [splitNl_cons_ne _ _ hc, ih hcs]
    rfl

theorem splitNl_line (s r : Text) (h : '\n' ∉ s) :
    splitNl (s ++ '\n' :: r) = s :: splitNl r := by
  induction s with
  | nil => exact splitNl_cons_nl r
  | cons c cs ih =>
    have hc : c ≠ '\n' := fun e => h (by simp [e])
    have hcs : '\n' ∉ cs := fun e => h (List.mem_cons_of_mem _ e)
    rw [List.cons_append, splitNl_cons_ne _ _ hc, ih hcs]
    rfl

theorem not_mem_lastSeg (t : Text) : '\n' ∉ lastSeg t := by
  induction t with
  | nil => simp [lastSeg, splitNl, popOrEmpty_singleton]
  | cons c cs ih =>
    have hne := splitNl_ne_nil cs
    by_cases hc : c = '\n'
    · subst hc
      unfold lastSeg at ih ⊢
      rw [splitNl_cons_nl, popOrEmpty_cons _ _ hne]
      exact ih
    · unfold lastSeg at ih ⊢
      rw [splitNl_cons_ne _ _ hc]
      cases hs : splitNl cs with
      | nil => exact absurd hs hne
      | cons s ss =>
        rw [hs] at ih
        cases ss with
        | nil =>
          rw [popOrEmpty_singleton] at ih
          simp only [consHead, popOrEmpty_singleton, List.mem_cons, not_or]
          exact ⟨fun e => hc e.symm, ih⟩
        | cons s2 ss2 =>
          simp only [consHead]
          rw [popOrEmpty_cons _ _ (by simp)] at ih ⊢
          exact ih

theorem completeLines_line (t r : Text) :
    completeLines (t ++ '\n' :: r) = completeLines t ++ lastSeg t :: completeLines r := by
  rw [completeLines_append]
  congr 1
  unfold completeLines
  rw [splitNl_line _ _ (not_mem_lastSeg t), List.dropLast_cons_of_ne_nil (splitNl_ne_nil r)]

theorem dispatch_all_message (hooks : Hooks) (v : JsVal) (calls : List Call)
    (h : dispatch hooks v = some calls) : calls.all Call.isMessage = true := by
  unfold dispatch at h
  split at h
  · simp at h
  · simp only at h
    repeat' split at h
    all_goals
      simp only [Option.some.injEq] at h
      subst h
      simp [Call.isMessage]

theorem processLine_shape (parse : JsonParse) (hooks : Hooks) (line : Text) :
    ((processLine parse hooks line).2 = false ∧
        (processLine parse hooks line).1.all Call.isMessage = true) ∨
    ((processLine parse hooks line).2 = true ∧
        (processLine parse hooks line).1 = if hooks.onComplete then [Call.complete] else []) := by
  unfold processLine
  split
  · simp
  · split
    · simp only
      split
      · simp
      · split
        · simp
        · split
          · simp
          · rename_i calls hc
            exact Or.inl ⟨rfl, dispatch_all_message hooks _ calls hc⟩
    · simp

theorem forLines_shape (parse : JsonParse) (hooks : Hooks) (lines : List Text) :
    ∃ msgs : List Call, msgs.all Call.isMessage = true ∧
      (((forLines parse hooks lines).2 = false ∧ (forLines parse hooks lines).1 = msgs) ∨
       ((forLines parse hooks lines).2 = true ∧ (forLines parse hooks lines).1 =
          msgs ++ if hooks.onComplete then [Call.complete] else [])) := by
  induction lines with
  | nil => exact ⟨[], rfl, Or.inl ⟨rfl, rfl⟩⟩
  | cons l ls ih =>
    rw [forLines_cons]
    rcases processLine_shape parse hooks l with ⟨h2, h1⟩ | ⟨h2, h1⟩
    · obtain ⟨msgs, hm, hcase⟩ := ih
      refine ⟨(processLine parse hooks l).1 ++ msgs, by simp [List.all_append, h1, hm], ?_⟩
      rcases hcase with ⟨g2, g1⟩ | ⟨g2, g1⟩
      · exact Or.inl (by simp [h2, g2, g1])
      · exact Or.inr (by simp [h2, g2, g1, List.append_assoc])
    · exact ⟨[], rfl, Or.inr (by simp [h2, h1])⟩

theorem readLoop_values_snoc (parse : JsonParse) (hooks : Hooks) (cs : List Text)
    (x : Text) (rest : List ReadResult) :
    readLoop parse hooks (cs.map ReadResult.value ++ ReadResult.value x :: rest) [] =
      if (forLines parse hooks (completeLines (cs.flatten ++ x))).2
      then (forLines parse hooks (completeLines (cs.flatten ++ x))).1
      else (forLines parse hooks (completeLines (cs.flatten ++ x))).1 ++
        readLoop parse hooks rest (lastSeg (cs.flatten ++ x)) := by
  have h := readLoop_values parse hooks (cs ++ [x]) rest [] (by simp [splitNl])
  simpa using h

theorem completeLines_of_not_mem (s : Text) (h : '\n' ∉ s) : completeLines s = [] := by
  unfold completeLines
  rw [splitNl_of_not_mem s h]
  rfl

theorem lastSeg_of_not_mem (s : Text) (h : '\n' ∉ s) : lastSeg s = s := by
  unfold lastSeg
  rw [splitNl_of_not_mem s h, popOrEmpty_singleton]

theorem completeLines_sentinel (t after : Text) (ht : lastSeg t = []) :
    completeLines (t ++ (dataPrefix ++ doneSentinel ++ '\n' :: after)) =
      completeLines t ++ (dataPrefix ++ doneSentinel) :: completeLines after := by
  have hn : '\n' ∉ dataPrefix ++ doneSentinel := by decide
  rw [completeLines_append, ht, List.nil_append, completeLines_line,
    completeLines_of_not_mem _ hn, lastSeg_of_not_mem _ hn]
  simp

theorem processLine_sentinel (parse : JsonParse) (hooks : Hooks) :
    processLine parse hooks (dataPrefix ++ doneSentinel) =
      (if hooks.onComplete then [Call.complete] else [], true) := by
  have h1 : jsTrim (dataPrefix ++ doneSentinel) ≠ [] := by decide
  have h2 : dataPrefix.isPrefixOf (dataPrefix ++ doneSentinel) = true := by decide
  have h3 : (dataPrefix ++ doneSentinel).drop 6 = doneSentinel := by decide
  unfold processLine
  rw [if_neg h1, if_pos h2]
  simp only [h3, if_true]

theorem jsTrim_dataPrefix_ne_nil (p : Text) : jsTrim (dataPrefix ++ p) ≠ [] := by
  have hd : isJsWhiteSpace 'd' = false := by decide
  have h1 : (dataPrefix ++ p).dropWhile isJsWhiteSpace = dataPrefix ++ p := by
    simp [dataPrefix, List.dropWhile, hd]
  unfold jsTrim
  rw [h1]
  intro h
  rw [List.reverse_eq_nil_iff, List.dropWhile_eq_nil_iff] at h
  have := h 'd' (by simp [dataPrefix])
  rw [hd] at this
  exact absurd this (by decide)

theorem processLine_data (parse : JsonParse) (hooks : Hooks) (p : Text)
    (hp : p ≠ doneSentinel) :
    processLine parse hooks (dataPrefix ++ p) =
      match parse p with
      | none => ([], false)
      | some parsed =>
        match dispatch hooks parsed with
        | none => ([], false)
        | some calls => (calls, false) := by
  have h2 : dataPrefix.isPrefixOf (dataPrefix ++ p) = true := by
    simp [dataPrefix, List.isPrefixOf]
  have h3 : (dataPrefix ++ p).drop 6 = p := by
    simp [dataPrefix]
  unfold processLine
  rw [if_neg (jsTrim_dataPrefix_ne_nil p), if_pos h2]
  simp only [h3, if_neg hp]

theorem lookupField_of_absent (key : String) (fields : List (String × JsVal))
    (h : ∀ kv ∈ fields, kv.1 ≠ key) : lookupField key fields = JsVal.undefined := by
  induction fields with
  | nil => rfl
  | cons kv rest ih =>
    obtain ⟨k, v⟩ := kv
    have hk : k ≠ key := h (k, v) (by simp)
    simp only [lookupField, if_neg hk]
    exact ih (fun kv hkv => h kv (List.mem_cons_of_mem _ hkv))

theorem isStr_eq_true (v : JsVal) (s : String) : isStr v s = true ↔ v = JsVal.str s := by
  cases v <;> simp [isStr]

theorem completeLines_unlines (ls : List Text) (h : ∀ l ∈ ls, '\n' ∉ l) :
    completeLines (unlines ls) = ls := by
  induction ls with
  | nil => rfl
  | cons l ls ih =>
    have hl : '\n' ∉ l := h l (by simp)
    have hls : ∀ x ∈ ls, '\n' ∉ x := fun x hx => h x (List.mem_cons_of_mem _ hx)
    show completeLines (l ++ '\n' :: unlines ls) = l :: ls
    rw [completeLines_line, completeLines_of_not_mem l hl, lastSeg_of_not_mem l hl, ih hls]
    rfl

theorem forLines_skip (parse : JsonParse) (hooks : Hooks) (pre post : List Text) (bad : Text)
    (h : processLine parse hooks bad = ([], false)) :
    forLines parse hooks (pre ++ bad :: post) = forLines parse hooks (pre ++ post) := by
  rw [forLines_append, forLines_append, forLines_cons, h]
  simp

theorem all_message_no_error (calls : List Call) (h : calls.all Call.isMessage = true) :
    calls.any Call.isError = false := by
  induction calls with
  | nil => rfl
  | cons c cs ih =>
    simp only [List.all_cons, Bool.and_eq_true] at h
    simp only [List.any_cons, ih h.2, Bool.or_false]
    cases c <;> simp_all [Call.isMessage, Call.isError]

theorem runLines_no_error (parse : JsonParse) (hooks : Hooks) (lines : List Text) :
    (runLines parse hooks lines).any Call.isError = false := by
  obtain ⟨msgs, hm, hcase⟩ := forLines_shape parse hooks lines
  have he := all_message_no_error msgs hm
  unfold runLines
  rcases hcase with ⟨g2, g1⟩ | ⟨g2, g1⟩
  · simp only [g2, g1, Bool.false_eq_true, if_false, List.any_append, he, Bool.false_or]
    cases hooks.onComplete <;> simp [Call.isError]
  · simp only [g2, g1, if_true, List.any_append, he, Bool.false_or]
    cases hooks.onComplete <;> simp [Call.isError]

/-! ## The decoder: chunking and completion -/

/-- C1, chunking independence: two chunk sequences that carry the same text,
each followed by the reader reporting done, give the same sequence of hook
calls; and that sequence is the one the line loop produces on the
newline-separated segments of the text without the last segment, whatever the
chunk boundaries. -/
theorem chunking_independence (parse : JsonParse) (hooks : Hooks) (cs1 cs2 : List Text)
    (h : cs1.flatten = cs2.flatten) :
    handleStreamResponse parse hooks (chunksThenDone cs1) =
        handleStreamResponse parse hooks (chunksThenDone cs2) ∧
      handleStreamResponse parse hooks (chunksThenDone cs1) =
        runLines parse hooks (splitNl cs1.flatten).dropLast := by
  have h1 := handle_chunksThenDone parse hooks cs1
  have h2 := handle_chunksThenDone parse hooks cs2
  unfold completeLines at h1 h2
  refine ⟨?_, h1⟩
  rw [h1, h2, h]

/-- Witness of C1: a text cut in the middle of a line, at a newline and with an
empty chunk, against the same text in one chunk. -/
theorem chunking_independence_witness :
    handleStreamResponse sampleParse allHooks
        (chunksThenDone ["da".toList, "ta: ".toList ++ contentPayload, [], "\n".toList,
          "\ndata: x".toList]) =
        handleStreamResponse sampleParse allHooks
          (chunksThenDone ["data: ".toList ++ contentPayload ++ "\n\ndata: x".toList]) ∧
      handleStreamResponse sampleParse allHooks
        (chunksThenDone ["da".toList, "ta: ".toList ++ contentPayload, [], "\n".toList,
          "\ndata: x".toList]) =
        runLines sampleParse allHooks
          (splitNl (["da".toList, "ta: ".toList ++ contentPayload, [], "\n".toList,
            "\ndata: x".toList]).flatten).dropLast :=
  chunking_independence sampleParse allHooks _ _ (by decide)

/-- C2, completion is signalled exactly once and is final. With all hooks
supplied and no failing read: (1) whatever chunks precede the reader reporting
done, and whatever the script holds after it, the run is a list of `onMessage`
calls followed by exactly one `onComplete`; (2) when a chunk brings a line
`data: [DONE]` (the text before it being empty or ending in a newline), the run
is again `onMessage` calls followed by one `onComplete`, and it is the same
whatever follows the sentinel in the same chunk and whatever the reader would
deliver afterwards, a later done included; (3) a reader that reports done at
once gives exactly one `onComplete` and nothing else. -/
theorem completion_exactly_once (parse : JsonParse) (cs : List Text) :
    (∀ rest : List ReadResult, ∃ msgs : List Call, msgs.all Call.isMessage = true ∧
        handleStreamResponse parse allHooks
          (cs.map ReadResult.value ++ ReadResult.done :: rest) = msgs ++ [Call.complete]) ∧
    (∀ before : Text, lastSeg (cs.flatten ++ before) = [] →
        ∃ msgs : List Call, msgs.all Call.isMessage = true ∧
          ∀ (after : Text) (rest : List ReadResult),
            handleStreamResponse parse allHooks
              (cs.map ReadResult.value ++
                ReadResult.value (before ++ (dataPrefix ++ doneSentinel ++ '\n' :: after)) ::
                  rest) =
              msgs ++ [Call.complete]) ∧
    (∀ rest : List ReadResult,
        handleStreamResponse parse allHooks (ReadResult.done :: rest) = [Call.complete]) := by
  have hc : allHooks.onComplete = true := rfl
  refine ⟨?_, ?_, ?_⟩
  · intro rest
    unfold handleStreamResponse
    rw [readLoop_values parse allHooks cs _ [] (by simp [splitNl]), List.nil_append]
    obtain ⟨msgs, hm, hcase⟩ := forLines_shape parse allHooks (completeLines cs.flatten)
    refine ⟨msgs, hm, ?_⟩
    rcases hcase with ⟨g2, g1⟩ | ⟨g2, g1⟩
    · simp [g2, g1, readLoop, hc]
    · simp [g2, g1, hc]
  · intro before hb
    obtain ⟨msgs, hm, hcase⟩ := forLines_shape parse allHooks
      (completeLines (cs.flatten ++ before))
    refine ⟨msgs, hm, ?_⟩
    intro after rest
    unfold handleStreamResponse
    rw [readLoop_values_snoc, ← List.append_assoc, completeLines_sentinel _ _ hb,
      forLines_append, forLines_cons, processLine_sentinel]
    rcases hcase with ⟨g2, g1⟩ | ⟨g2, g1⟩
    · simp [g2, g1, hc]
    · simp [g2, g1, hc]
  · intro rest
    simp [handleStreamResponse, readLoop, hc]

/-- Witness of C2: the sentinel as the first line of the stream, followed by a
further line in the same chunk, a further chunk and the reader reporting
done. -/
theorem completion_exactly_once_witness :
    ∃ msgs : List Call, msgs.all Call.isMessage = true ∧
      handleStreamResponse sampleParse allHooks
        [ReadResult.value ("data: [DONE]\n".toList ++ dataPrefix ++ contentPayload ++
            "\n".toList),
          ReadResult.value (dataPrefix ++ contentPayload ++ "\n".toList),
          ReadResult.done] = msgs ++ [Call.complete] := by
  obtain ⟨msgs, hm, h⟩ := (completion_exactly_once sampleParse []).2.1 [] (by rfl)
  exact ⟨msgs, hm, h (dataPrefix ++ contentPayload ++ "\n".toList)
    [ReadResult.value (dataPrefix ++ contentPayload ++ "\n".toList), ReadResult.done]⟩

/-! ## The classifier -/

/-- C3, content events: a complete line `data: <json>` whose JSON object has
`type` equal to `"content"` gives exactly one `onMessage` call when its
`content` is a non-empty string, with that content and the payload's
`conversation_id` (`undefined` when absent); it gives no call when `content` is
absent or the empty string. -/
theorem content_event (parse : JsonParse) (p : Text) (fields : List (String × JsVal))
    (hp : p ≠ doneSentinel) (hv : parse p = some (JsVal.obj fields))
    (hty : lookupField "type" fields = JsVal.str "content") :
    (∀ s : String, s ≠ "" → lookupField "content" fields = JsVal.str s →
        processLine parse allHooks (dataPrefix ++ p) =
          ([Call.message (some (JsVal.str s)) (lookupField "conversation_id" fields)],
            false)) ∧
    ((lookupField "content" fields = JsVal.undefined ∨
        lookupField "content" fields = JsVal.str "") →
        processLine parse allHooks (dataPrefix ++ p) = ([], false)) := by
  rw [processLine_data parse allHooks p hp, hv]
  constructor
  · intro s hs hc
    simp [dispatch, getProp, hty, hc, isStr, truthy, hs, allHooks]
  · rintro (hc | hc) <;> simp [dispatch, getProp, hty, hc, isStr, truthy]

/-- Witness of C3: the line of the specification's example, and a content
payload whose `content` is empty. -/
theorem content_event_witness :
    processLine sampleParse allHooks (dataPrefix ++ contentPayload) =
        ([Call.message (some (JsVal.str "hi")) (JsVal.str "c1")], false) ∧
      processLine sampleParse allHooks (dataPrefix ++ emptyContentPayload) = ([], false) :=
  ⟨(content_event sampleParse contentPayload
      [("type", JsVal.str "content"), ("content", JsVal.str "hi"),
        ("conversation_id", JsVal.str "c1")]
      (by decide) (by rfl) (by rfl)).1 "hi" (by decide) (by rfl),
   (content_event sampleParse emptyContentPayload
      [("type", JsVal.str "content"), ("content", JsVal.str "")]
      (by decide) (by rfl) (by rfl)).2 (Or.inr (by rfl))⟩

/-- C4, status-like events never carry content: for a payload whose `type` is
one of `status`, `tools_status`, `thinking`, `response_start`, whatever its
other fields, the decoder makes exactly one `onMessage` call, with
`conversation_id` only, when the payload's `conversation_id` is non-empty
(truthy), and no call when it is absent (or otherwise falsy). -/
theorem status_event (fields : List (String × JsVal)) (t : String)
    (ht : t ∈ statusTypes) (hty : lookupField "type" fields = JsVal.str t) :
    (truthy (lookupField "conversation_id" fields) = true →
        dispatch allHooks (JsVal.obj fields) =
          some [Call.message none (lookupField "conversation_id" fields)]) ∧
    (truthy (lookupField "conversation_id" fields) = false →
        dispatch allHooks (JsVal.obj fields) = some []) := by
  have h1 : isStr (JsVal.str t) "content" = false := by
    have : t ≠ "content" := by
      intro e; subst e; revert ht; decide
    simp [isStr, this]
  have h2 : statusTypes.any (fun u => isStr (JsVal.str t) u) = true := by
    simp only [List.any_eq_true]
    exact ⟨t, ht, by simp [isStr]⟩
  constructor
  · intro hc
    simp only [dispatch, getProp, hty, Option.getD_some, h1, h2, hc, allHooks]
    simp
  · intro hc
    simp only [dispatch, getProp, hty, Option.getD_some, h1, h2, hc, allHooks]
    simp

/-- Witness of C4: the payload
`{"type":"status","message":"thinking","conversation_id":"c1"}`, and the payload
`{"type":"thinking","content":"x"}` without a conversation id. -/
theorem status_event_witness :
    dispatch allHooks (JsVal.obj [("type", JsVal.str "status"),
        ("message", JsVal.str "thinking"), ("conversation_id", JsVal.str "c1")]) =
        some [Call.message none (JsVal.str "c1")] ∧
      dispatch allHooks (JsVal.obj [("type", JsVal.str "thinking"),
        ("content", JsVal.str "x")]) = some [] :=
  ⟨(status_event [("type", JsVal.str "status"), ("message", JsVal.str "thinking"),
      ("conversation_id", JsVal.str "c1")] "status" (by decide) (by rfl)).1 (by rfl),
   (status_event [("type", JsVal.str "thinking"), ("content", JsVal.str "x")]
      "thinking" (by decide) (by rfl)).2 (by rfl)⟩

/-- C5 as stated fails: a `type` field that is present but falsy (`null`, the
empty string, `0`, `false`) does not stop the content/message fallback, and
`onMessage` is called with a `content` field. -/
theorem type_precedence_counterexample :
    dispatch allHooks (JsVal.obj [("type", JsVal.null), ("message", JsVal.str "hi")]) =
        some [Call.message (some (JsVal.str "hi")) JsVal.undefined] ∧
    dispatch allHooks (JsVal.obj [("type", JsVal.str ""), ("content", JsVal.str "x")]) =
        some [Call.message (some (JsVal.str "x")) JsVal.undefined] ∧
    dispatch allHooks (JsVal.obj [("type", JsVal.num 0), ("content", JsVal.str "x")]) =
        some [Call.message (some (JsVal.str "x")) JsVal.undefined] ∧
    dispatch allHooks (JsVal.obj [("type", JsVal.bool false), ("content", JsVal.str "x")]) =
        some [Call.message (some (JsVal.str "x")) JsVal.undefined] ∧
    (([Call.message (some (JsVal.str "hi")) JsVal.undefined].any Call.hasContent) = true) :=
  ⟨rfl, rfl, rfl, rfl, rfl⟩

/-- C5 amended, type-field precedence: for every parsed payload whose `type` is
truthy (anything but an absent field, `null`, the empty string, `0` and
`false`) and is not the string `"content"`, the decoder completes without an
exception and makes no `onMessage` call that has a `content` field. -/
theorem type_precedence (hooks : Hooks) (v ty : JsVal)
    (hty : getProp v "type" = some ty) (htruthy : truthy ty = true)
    (hne : ty ≠ JsVal.str "content") :
    ∃ calls : List Call, dispatch hooks v = some calls ∧
      calls.any Call.hasContent = false := by
  have h1 : isStr ty "content" = false := by
    cases h : isStr ty "content"
    · rfl
    · exact absurd ((isStr_eq_true ty "content").1 h) hne
  unfold dispatch
  simp only [hty, h1, htruthy, Bool.not_true, Bool.and_false, Bool.false_eq_true, if_false]
  by_cases hs : statusTypes.any (fun t => isStr ty t) = true
  · simp only [hs, if_true]
    by_cases hc : (truthy ((getProp v "conversation_id").getD JsVal.undefined) &&
        hooks.onMessage) = true
    · rw [if_pos hc]
      exact ⟨_, rfl, rfl⟩
    · rw [if_neg hc]
      exact ⟨_, rfl, rfl⟩
  · simp only [hs, if_false]
    exact ⟨_, rfl, rfl⟩

/-- Witness of C5 amended: the status payload of the specification, which
carries a `message`. -/
theorem type_precedence_witness :
    ∃ calls : List Call,
      dispatch allHooks (JsVal.obj [("type", JsVal.str "status"),
        ("message", JsVal.str "thinking"), ("conversation_id", JsVal.str "c1")]) = some calls ∧
      calls.any Call.hasContent = false :=
  type_precedence allHooks _ (JsVal.str "status") (by rfl) (by rfl)
    (by intro h; exact absurd (JsVal.str.inj h) (by decide))

/-- C6 as stated fails: the payload `{"type":"foo","content":"x"}`, whose tag
is not one of the five known ones, gives no `onMessage` call at all. -/
theorem unrecognized_tag_counterexample :
    dispatch allHooks (JsVal.obj [("type", JsVal.str "foo"), ("content", JsVal.str "x")]) =
        some [] ∧
      ([] : List Call).countP Call.isMessage = 0 :=
  ⟨rfl, rfl⟩

/-- C6 amended, unrecognized tags are dropped: for every parsed payload whose
`type` is a non-empty string other than `content`, `status`, `tools_status`,
`thinking` and `response_start`, the decoder makes no `onMessage` call,
whatever `content` or `message` the payload carries. -/
theorem unrecognized_tag_ignored (hooks : Hooks) (fields : List (String × JsVal))
    (t : String) (hty : lookupField "type" fields = JsVal.str t) (hne : t ≠ "")
    (hcontent : t ≠ "content") (hstatus : t ∉ statusTypes) :
    dispatch hooks (JsVal.obj fields) = some [] := by
  have h1 : isStr (JsVal.str t) "content" = false := by simp [isStr, hcontent]
  have h2 : statusTypes.any (fun u => isStr (JsVal.str t) u) = false := by
    rw [List.any_eq_false]
    intro u hu
    simp only [isStr, beq_iff_eq]
    intro e
    exact hstatus (e ▸ hu)
  have h3 : truthy (JsVal.str t) = true := by simp [truthy, hne]
  simp [dispatch, getProp, hty, h1, h2, h3]

/-- Witness of C6 amended: the payload `{"type":"foo","content":"x"}`. -/
theorem unrecognized_tag_ignored_witness :
    dispatch allHooks (JsVal.obj [("type", JsVal.str "foo"), ("content", JsVal.str "x")]) =
      some [] :=
  unrecognized_tag_ignored allHooks _ "foo" (by rfl) (by decide) (by decide) (by decide)

/-- C7, untagged legacy payloads: for every parsed payload without a `type`
field, when its `content` or its `message` is non-empty (truthy) the decoder
makes exactly one `onMessage` call, whose `content` is the payload's `content`
when that is non-empty and its `message` otherwise, and whose `conversation_id`
is the payload's (`undefined` when absent); when neither is non-empty it makes
no call. -/
theorem untagged_legacy_payload (fields : List (String × JsVal))
    (hty : ∀ kv ∈ fields, kv.1 ≠ "type") :
    ((truthy (lookupField "content" fields) = true ∨
        truthy (lookupField "message" fields) = true) →
        dispatch allHooks (JsVal.obj fields) =
          some [Call.message
            (some (if truthy (lookupField "content" fields) = true
              then lookupField "content" fields else lookupField "message" fields))
            (lookupField "conversation_id" fields)]) ∧
    ((truthy (lookupField "content" fields) = false ∧
        truthy (lookupField "message" fields) = false) →
        dispatch allHooks (JsVal.obj fields) = some []) := by
  have h0 := lookupField_of_absent "type" fields hty
  have h1 : isStr JsVal.undefined "content" = false := rfl
  have h2 : statusTypes.any (fun t => isStr JsVal.undefined t) = false := rfl
  have h3 : truthy JsVal.undefined = false := rfl
  have hm : allHooks.onMessage = true := rfl
  constructor
  · intro h
    have hor : truthy (jsOr (lookupField "content" fields) (lookupField "message" fields))
        = true := by
      unfold jsOr
      rcases h with h | h
      · simp [h]
      · by_cases hc : truthy (lookupField "content" fields) = true
        · simp [hc]
        · simp [hc, h]
    simp only [dispatch, getProp, h0, Option.getD_some, h1, h2, h3, hor, hm,
      Bool.false_eq_true, if_false, Bool.not_false, Bool.and_self, if_true]
    rfl
  · rintro ⟨hc, hm2⟩
    have hor : truthy (jsOr (lookupField "content" fields) (lookupField "message" fields))
        = false := by
      simp [jsOr, hc, hm2]
    simp only [dispatch, getProp, h0, Option.getD_some, h1, h2, h3, hor,
      Bool.false_eq_true, if_false, Bool.false_and]

/-- Witness of C7: the payload `{"message":"legacy text"}`. -/
theorem untagged_legacy_payload_witness :
    dispatch allHooks (JsVal.obj [("message", JsVal.str "legacy text")]) =
      some [Call.message (some (JsVal.str "legacy text")) JsVal.undefined] :=
  ((untagged_legacy_payload [("message", JsVal.str "legacy text")] (by decide)).1
    (Or.inr (by rfl)))

/-! ## Malformed lines and the trailing partial line -/

/-- C8, malformed payloads are skipped without affecting the stream: take any
complete lines `pre` and `post` and insert between them a line `bad` that is
blank, or lacks the `data: ` prefix, or is `data: <p>` with `p` neither the
sentinel nor decodable. Then a stream carrying the lines with `bad` and one
carrying them without it, each cut into chunks in any way and ended by the
reader reporting done, give the same hook calls, and `onError` is not among
them. -/
theorem malformed_line_skipped (parse : JsonParse) (hooks : Hooks)
    (pre post : List Text) (bad : Text) (cs1 cs2 : List Text)
    (hpre : ∀ l ∈ pre, '\n' ∉ l) (hpost : ∀ l ∈ post, '\n' ∉ l) (hbad : '\n' ∉ bad)
    (hskip : jsTrim bad = [] ∨ dataPrefix.isPrefixOf bad = false ∨
      ∃ p : Text, bad = dataPrefix ++ p ∧ p ≠ doneSentinel ∧ parse p = none)
    (h1 : cs1.flatten = unlines (pre ++ bad :: post))
    (h2 : cs2.flatten = unlines (pre ++ post)) :
    handleStreamResponse parse hooks (chunksThenDone cs1) =
        handleStreamResponse parse hooks (chunksThenDone cs2) ∧
      (handleStreamResponse parse hooks (chunksThenDone cs1)).any Call.isError = false := by
  have hp : processLine parse hooks bad = ([], false) := by
    rcases hskip with h | h | ⟨p, hb, hp, hn⟩
    · unfold processLine
      rw [if_pos h]
    · unfold processLine
      split
      · rfl
      · simp [h]
    · rw [hb, processLine_data parse hooks p hp, hn]
  have hall1 : ∀ l ∈ pre ++ bad :: post, '\n' ∉ l := by
    intro l hl
    rcases List.mem_append.1 hl with h | h
    · exact hpre l h
    · rcases List.mem_cons.1 h with h | h
      · exact h ▸ hbad
      · exact hpost l h
  have hall2 : ∀ l ∈ pre ++ post, '\n' ∉ l := by
    intro l hl
    rcases List.mem_append.1 hl with h | h
    · exact hpre l h
    · exact hpost l h
  rw [handle_chunksThenDone, handle_chunksThenDone, h1, h2,
    completeLines_unlines _ hall1, completeLines_unlines _ hall2]
  refine ⟨?_, runLines_no_error parse hooks _⟩
  unfold runLines
  rw [forLines_skip parse hooks pre post bad hp]

/-- Witness of C8: the line `data: {not json}` between two content lines, the
stream with it cut in the middle of the malformed line. -/
theorem malformed_line_skipped_witness :
    handleStreamResponse sampleParse allHooks
        (chunksThenDone [dataPrefix ++ contentPayload ++ "\ndata: \x7bnot".toList,
          " json\x7d\n".toList ++ dataPrefix ++ bareContentPayload ++ "\n".toList]) =
        handleStreamResponse sampleParse allHooks
          (chunksThenDone [dataPrefix ++ contentPayload ++ "\n".toList ++
            dataPrefix ++ bareContentPayload ++ "\n".toList]) ∧
      (handleStreamResponse sampleParse allHooks
        (chunksThenDone [dataPrefix ++ contentPayload ++ "\ndata: \x7bnot".toList,
          " json\x7d\n".toList ++ dataPrefix ++ bareContentPayload ++ "\n".toList])).any
        Call.isError = false :=
  malformed_line_skipped sampleParse allHooks
    [dataPrefix ++ contentPayload] [dataPrefix ++ bareContentPayload]
    (dataPrefix ++ brokenPayload) _ _
    (by decide) (by decide) (by decide)
    (Or.inr (Or.inr ⟨brokenPayload, rfl, by decide, by rfl⟩))
    (by decide) (by decide)

/-- C9, the trailing partial line is discarded at stream end: when the text of
the chunks is `body ++ tail` with no newline in `tail`, the run up to the
reader reporting done is the run of the stream that carries `body` alone, so
what follows the last newline is neither decoded nor dispatched; and a stream
that consists only of `data: {"type":"content","content":"hi"}` without a
newline gives no `onMessage` and exactly one `onComplete`, whatever
`JSON.parse` would make of the payload. -/
theorem trailing_segment_discarded (parse : JsonParse) (hooks : Hooks)
    (cs : List Text) (body tail : Text)
    (h : cs.flatten = body ++ tail) (ht : '\n' ∉ tail) :
    handleStreamResponse parse hooks (chunksThenDone cs) =
        handleStreamResponse parse hooks (chunksThenDone [body]) ∧
      handleStreamResponse parse allHooks
        (chunksThenDone [dataPrefix ++ bareContentPayload]) = [Call.complete] := by
  constructor
  · rw [handle_chunksThenDone, handle_chunksThenDone, h, completeLines_append]
    have hn : '\n' ∉ lastSeg body ++ tail := by
      intro hm
      rcases List.mem_append.1 hm with hm | hm
      · exact not_mem_lastSeg body hm
      · exact ht hm
    rw [completeLines_of_not_mem _ hn]
    simp
  · rw [handle_chunksThenDone]
    have hn : '\n' ∉ [dataPrefix ++ bareContentPayload].flatten := by decide
    rw [completeLines_of_not_mem _ hn]
    rfl

/-- Witness of C9: a complete content line followed by an unterminated one,
cut into two chunks. -/
theorem trailing_segment_discarded_witness :
    handleStreamResponse sampleParse allHooks
        (chunksThenDone [dataPrefix ++ contentPayload ++ "\nda".toList,
          "ta: ".toList ++ bareContentPayload]) =
        handleStreamResponse sampleParse allHooks
          (chunksThenDone [dataPrefix ++ contentPayload ++ "\n".toList]) ∧
      handleStreamResponse sampleParse allHooks
        (chunksThenDone [dataPrefix ++ bareContentPayload]) = [Call.complete] :=
  trailing_segment_discarded sampleParse allHooks _
    (dataPrefix ++ contentPayload ++ "\n".toList) (dataPrefix ++ bareContentPayload)
    (by decide) (by decide)

/-! ## The initial state loader -/

/-- C10 as stated fails: with `isLoggedIn` stored as `true` and `userInfo`
stored as the broken text `{`, per-field recovery would load `isLoggedIn` as
`true`, and so does `getInitialState` once the `userInfo` item is removed; but
with the broken item in place `getInitialState` loads `isLoggedIn` as `false`:
the decode failure of one key changes the value loaded for another field. -/
theorem initial_load_counterexample :
    specLoadField sampleParse brokenStorage "isLoggedIn" (JsVal.bool false) = JsVal.bool true ∧
      (getInitialState sampleParse intactStorage).isLoggedIn = JsVal.bool true ∧
      (getInitialState sampleParse brokenStorage).isLoggedIn = JsVal.bool false ∧
      (getInitialState sampleParse brokenStorage).isLoggedIn ≠
        specLoadField sampleParse brokenStorage "isLoggedIn" (JsVal.bool false) := by
  refine ⟨rfl, rfl, rfl, ?_⟩
  intro h
  have h2 : JsVal.bool false = JsVal.bool true := h
  exact absurd (JsVal.bool.inj h2) (by decide)

/-- C10 amended, all-or-nothing recovery on initial load: when the stored texts
of all five keys decode (an absent key being decoded as the text `null`), each
of the five fields is the value decoded from its own key, or the field's
default (`false`, `null`, `[]`, `null`, `[]`) when that value is falsy; when
the stored text of any of the five keys fails to decode, the state is the
default state in all its fields. -/
theorem initial_load_all_or_nothing (parse : JsonParse) (storage : Storage) :
    (∀ a b c d e : JsVal,
        parseItem parse storage "isLoggedIn" = some a →
        parseItem parse storage "userInfo" = some b →
        parseItem parse storage "conversations" = some c →
        parseItem parse storage "currentConversationId" = some d →
        parseItem parse storage "currentMessages" = some e →
        (getInitialState parse storage).isLoggedIn = jsOr a (JsVal.bool false) ∧
        (getInitialState parse storage).userInfo = jsOr b JsVal.null ∧
        (getInitialState parse storage).conversations = jsOr c (JsVal.arr []) ∧
        (getInitialState parse storage).currentConversationId = jsOr d JsVal.null ∧
        (getInitialState parse storage).currentMessages = jsOr e (JsVal.arr [])) ∧
    ((parseItem parse storage "isLoggedIn" = none ∨
        parseItem parse storage "userInfo" = none ∨
        parseItem parse storage "conversations" = none ∨
        parseItem parse storage "currentConversationId" = none ∨
        parseItem parse storage "currentMessages" = none) →
        getInitialState parse storage = fallbackState) := by
  constructor
  · intro a b c d e ha hb hc hd he
    simp [getInitialState, tryInitialState, ha, hb, hc, hd, he]
  · intro h
    unfold getInitialState tryInitialState
    rcases h with h | h | h | h | h
    · simp [h]
    · cases parseItem parse storage "isLoggedIn" <;> simp [h]
    · cases parseItem parse storage "isLoggedIn" <;>
        cases parseItem parse storage "userInfo" <;> simp [h]
    · cases parseItem parse storage "isLoggedIn" <;>
        cases parseItem parse storage "userInfo" <;>
        cases parseItem parse storage "conversations" <;> simp [h]
    · cases parseItem parse storage "isLoggedIn" <;>
        cases parseItem parse storage "userInfo" <;>
        cases parseItem parse storage "conversations" <;>
        cases parseItem parse storage "currentConversationId" <;> simp [h]

/-- Witness of C10 amended: the storage that holds only `isLoggedIn`, and the
storage whose `userInfo` item is broken. -/
theorem initial_load_all_or_nothing_witness :
    (getInitialState sampleParse intactStorage).isLoggedIn = JsVal.bool true ∧
      getInitialState sampleParse brokenStorage = fallbackState :=
  ⟨((initial_load_all_or_nothing sampleParse intactStorage).1
      (JsVal.bool true) JsVal.null JsVal.null JsVal.null JsVal.null
      (by rfl) (by rfl) (by rfl) (by rfl) (by rfl)).1,
   (initial_load_all_or_nothing sampleParse brokenStorage).2 (Or.inr (Or.inl (by rfl)))⟩

end ChatClient
